import Mathlib

/-!
Verification of the enrollment/matching core of the face-recognition
attendance service (`src/app.py`, Flask + Redis variant).

Shallow embedding conventions:
* Python strings (identifiers, Redis keys, URLs) are modelled as `List Char`
  (`PyStr`); Python's `str.split(':')` is modelled by `splitOnColon`.
* Face encodings (numpy float arrays / JSON float arrays) are modelled as
  `List Rat`.  JSON serialisation of an encoding (`json.dumps` on write,
  `json.loads` on read) is a lossless injective transport and is modelled as
  the identity; a Redis value is `Option Enc`, where `none` stands for a
  payload that fails to parse as JSON (`json.JSONDecodeError` branch).
* The Redis database is an association list of key/value pairs; `redisSet`
  models `SET` (replace the value of an existing key, else append) and the
  `KEYS 'face_encoding:*'` scan is modelled by filtering on the key pattern.
* The external collaborators (base64 image decoding, the face_recognition
  library) are modelled by a `Vision` oracle carrying the outcome of
  `decode_image` and the list of encodings `face_recognition.face_encodings`
  returns for the decoded image.  `compare_faces(known, probe, tolerance=0.55)`
  computes, per known encoding, whether the Euclidean distance is ≤ 0.55;
  since both sides are nonnegative this is equivalent to comparing the
  squared distance against 0.55² = 121/400, which keeps the model in `ℚ`.
* The Flask handlers `add_face` and `recognize_face` become functions from
  the global state (Redis contents + `KNOWN_FACES` cache) and the request
  fields to a result together with the new global state.
-/

/-- Python strings are modelled as lists of characters. -/
abbrev PyStr := List Char

/-- A face encoding vector (numpy float array), modelled over `ℚ`. -/
abbrev Enc := List Rat

/-- One entry of the in-memory cache `KNOWN_FACES`: `{'roll': ..., 'encoding': ...}`. -/
structure FaceRec where
  roll : PyStr
  encoding : Enc
deriving DecidableEq, Repr

/-- Model of Python's `str.split(':')`: splits at every colon, keeping empty
pieces, and returns `[""]` on the empty string. -/
def splitOnColon : PyStr → List PyStr
  | [] => [[]]
  | c :: rest =>
    match splitOnColon rest with
    | [] => [[c]]
    | s :: ss => if c = ':' then [] :: s :: ss else (c :: s) :: ss

/-- The characters of `"face_encoding"`. -/
def fe : PyStr := "face_encoding".toList

/-- The characters of the key pattern stem `"face_encoding:"`. -/
def kf : PyStr := fe ++ [':']

/-- The Redis key used by `add_face`: `f'face_encoding:{roll}'`. -/
def faceKey (roll : PyStr) : PyStr := fe ++ ':' :: roll

/-- Whether a key matches the scan pattern `'face_encoding:*'`. -/
def matchesPattern (k : PyStr) : Bool := decide (k.take kf.length = kf)

/-- A Redis value: `some v` is a well-formed JSON float array, `none` a
payload on which `json.loads` raises. -/
abbrev RVal := Option Enc

/-- The Redis database: an association list of key/value pairs. -/
abbrev RedisDb := List (PyStr × RVal)

/-- Model of `redis_client.set k v`: replace the value of an existing key,
otherwise append the pair. -/
def redisSet : RedisDb → PyStr → RVal → RedisDb
  | [], k, v => [(k, v)]
  | kv :: rest, k, v => if kv.1 = k then (k, v) :: rest else kv :: redisSet rest k v

/-- Loading a single scanned key in `load_faces_from_redis`: the roll is
`key.split(':')[1]` and the encoding is the parsed JSON value; an entry whose
parse fails (or, per the `IndexError` guard, whose split has no index 1) is
skipped. -/
def loadEntry (kv : PyStr × RVal) : Option FaceRec :=
  match (splitOnColon kv.1).get? 1, kv.2 with
  | some roll, some enc => some { roll := roll, encoding := enc }
  | _, _ => none

/-- Model of `load_faces_from_redis`: scan all keys matching
`'face_encoding:*'` and collect the entries that load successfully. -/
def loadFaces (db : RedisDb) : List FaceRec :=
  (db.filter fun kv => matchesPattern kv.1).filterMap loadEntry

/-- The in-memory cache update of `add_face`: scan `KNOWN_FACES`, replace the
encoding of the first record with a matching roll, append a fresh record when
none matches. -/
def updateCache : List FaceRec → PyStr → Enc → List FaceRec
  | [], roll, enc => [{ roll := roll, encoding := enc }]
  | fr :: rest, roll, enc =>
    if fr.roll = roll then { roll := roll, encoding := enc } :: rest
    else fr :: updateCache rest roll enc

/-- The rolls of a record list, in order. -/
def rollsOf (l : List FaceRec) : List PyStr := l.map (·.roll)

/-- Lookup of the first record with a given roll (the encoding it binds). -/
def lookupRoll (l : List FaceRec) (r : PyStr) : Option Enc :=
  (l.find? fun fr => fr.roll = r).map (·.encoding)

/-- Two record lists are equivalent as identifier → encoding mappings. -/
def mapEquiv (a b : List FaceRec) : Prop := ∀ r, lookupRoll a r = lookupRoll b r

/-- The whole mutable server state: the Redis contents and the in-memory
`KNOWN_FACES` cache. -/
structure ServerState where
  redisDb : RedisDb
  knownFaces : List FaceRec
deriving DecidableEq, Repr

/-- Oracle for the external collaborators on one request image: whether
`decode_image` returns an image (vs `None`), and the encodings
`face_recognition.face_encodings` extracts from it. -/
structure Vision where
  decoded : Bool
  encodings : List Enc
deriving DecidableEq, Repr

/-- Python truthiness of an optional string: `None` and `''` are falsy. -/
def strFalsy : Option PyStr → Bool
  | none => true
  | some s => s.isEmpty

/-- Squared Euclidean distance between two encodings (componentwise over the
zipped vectors; stored and probe encodings have the same model-fixed length). -/
def sqDist (a b : Enc) : Rat := ((a.zip b).map fun p => (p.1 - p.2) ^ 2).sum

/-- The squared tolerance: `0.55² = 121/400`. -/
def tolSq : Rat := 121 / 400

/-- One comparison of `compare_faces(..., tolerance=0.55)`: distance ≤ 0.55,
expressed equivalently as squared distance ≤ 0.55². -/
def isMatch (known probe : Enc) : Bool := decide (sqDist known probe ≤ tolSq)

/-- Outcomes of the `add_face` handler. -/
inductive AddResult where
  | invalidInput
  | invalidImage
  | noFaceDetected
  | multipleFaces
  | success (roll : PyStr)
deriving DecidableEq, Repr

/-- Outcomes of the `recognize_face` handler. -/
inductive RecResult where
  | invalidInput
  | emptyDatabase
  | invalidImage
  | noFaceDetected
  | matched (roll : PyStr)
  | noMatch
deriving DecidableEq, Repr

/-- Model of the `add_face` handler: validate the request fields, decode the
image, demand exactly one detected face, then write the encoding to Redis
under `face_encoding:<roll>` and upsert the in-memory cache. -/
def addFace (st : ServerState) (roll? image? : Option PyStr) (v : Vision) :
    AddResult × ServerState :=
  if strFalsy roll? || strFalsy image? then (.invalidInput, st)
  else if v.decoded = false then (.invalidImage, st)
  else
    match v.encodings with
    | [] => (.noFaceDetected, st)
    | [e] =>
      let roll := roll?.getD []
      (.success roll,
        { redisDb := redisSet st.redisDb (faceKey roll) (some e),
          knownFaces := updateCache st.knownFaces roll e })
    | _ :: _ :: _ => (.multipleFaces, st)

/-- Model of `matches.index(True)` guarded by `True in matches`: the index of
the first `true`, if any. -/
def idxOfTrue : List Bool → Option Nat
  | [] => none
  | b :: rest => if b then some 0 else (idxOfTrue rest).map (· + 1)

/-- The match resolution of `recognize_face`: build the boolean list
`compare_faces` returns over the cache, take the index of the first `True`,
and read off the corresponding roll. -/
def matchAgainst (cache : List FaceRec) (probe : Enc) : Option PyStr :=
  match idxOfTrue (cache.map fun fr => isMatch fr.encoding probe) with
  | some i => (cache.map (·.roll)).get? i
  | none => none

/-- Model of the `recognize_face` handler: validate the image field, answer
`emptyDatabase` on an empty cache, decode, demand at least one face, compare
the first detected face against the cache and apply the truthiness check to
the recognized roll. -/
def recognizeFace (st : ServerState) (image? : Option PyStr) (v : Vision) :
    RecResult × ServerState :=
  if strFalsy image? then (.invalidInput, st)
  else if st.knownFaces.isEmpty then (.emptyDatabase, st)
  else if v.decoded = false then (.invalidImage, st)
  else
    match v.encodings with
    | [] => (.noFaceDetected, st)
    | probe :: _ =>
      let recognized? := matchAgainst st.knownFaces probe
      if strFalsy recognized? then (.noMatch, st)
      else (.matched (recognized?.getD []), st)

/-- The two storage backends of the specification: an external key-value
store reached through a connection URL, or a single flat file.  The
`flatFile` constructor is taken from the spec's words (backend taxonomy of
§4.1/§6); the code below never produces it. -/
inductive Backend where
  | keyValue (url : PyStr)
  | flatFile
deriving DecidableEq, Repr

/-- The fallback connection string `'redis://localhost:6379'`. -/
def defaultRedisUrl : PyStr := "redis://localhost:6379".toList

/-- Model of the startup URL resolution: `os.getenv('REDIS_URL')` followed by
`if not redis_url: redis_url = 'redis://localhost:6379'`. -/
def resolveRedisUrl (env : Option PyStr) : PyStr :=
  match env with
  | none => defaultRedisUrl
  | some u => if u.isEmpty then defaultRedisUrl else u

/-- The backend the startup code constructs: always the key-value store
(`redis.from_url(redis_url, ...)`), at the resolved URL. -/
def selectBackend (env : Option PyStr) : Backend :=
  Backend.keyValue (resolveRedisUrl env)

/-- Well-formedness of the scanned part of a Redis database: every key
matching the pattern consists of the stem followed by a colon-free roll.
Every key `add_face` itself writes for a colon-free roll has this shape. -/
def CanonicalKeys (db : RedisDb) : Prop :=
  ∀ kv ∈ db, matchesPattern kv.1 = true → ':' ∉ kv.1.drop kf.length

instance : DecidablePred CanonicalKeys := fun db => by
  unfold CanonicalKeys; infer_instance

/-! ## Basic lemmas about keys and the split -/

theorem splitOnColon_ne_nil (s : PyStr) : splitOnColon s ≠ [] := by
  induction s with
  | nil => simp [splitOnColon]
  | cons c rest ih =>
    rw [splitOnColon]
    cases hsp : splitOnColon rest with
    | nil => exact absurd hsp ih
    | cons s ss => by_cases hc : c = ':' <;> simp [hc]

theorem splitOnColon_no_colon (s : PyStr) (h : ':' ∉ s) : splitOnColon s = [s] := by
  induction s with
  | nil => rfl
  | cons c rest ih =>
    have hc : ¬ c = ':' := fun hc => h (by simp [hc])
    have hr : ':' ∉ rest := fun hm => h (List.mem_cons_of_mem _ hm)
    rw [splitOnColon, ih hr]
    simp [hc]

theorem splitOnColon_append (a b : PyStr) (ha : ':' ∉ a) :
    splitOnColon (a ++ ':' :: b) = a :: splitOnColon b := by
  induction a with
  | nil =>
    simp only [List.nil_append]
    rw [splitOnColon]
    cases hsp : splitOnColon b with
    | nil => exact absurd hsp (splitOnColon_ne_nil b)
    | cons s ss => simp
  | cons c rest ih =>
    have hc : ¬ c = ':' := fun hc => ha (by simp [hc])
    have hr : ':' ∉ rest := fun hm => ha (List.mem_cons_of_mem _ hm)
    simp only [List.cons_append]
    rw [splitOnColon, ih hr]
    simp [hc]

theorem colon_not_mem_fe : ':' ∉ fe := by decide

theorem faceKey_eq_kf_append (r : PyStr) : faceKey r = kf ++ r := by
  simp [faceKey, kf, List.append_assoc]

theorem keyRoll_faceKey (r : PyStr) (hr : ':' ∉ r) :
    (splitOnColon (faceKey r)).get? 1 = some r := by
  rw [faceKey, splitOnColon_append fe r colon_not_mem_fe,
    splitOnColon_no_colon r hr]
  rfl

theorem matchesPattern_faceKey (r : PyStr) : matchesPattern (faceKey r) = true := by
  rw [matchesPattern, faceKey_eq_kf_append, decide_eq_true_eq, List.take_left]

theorem drop_faceKey (r : PyStr) : (faceKey r).drop kf.length = r := by
  rw [faceKey_eq_kf_append, List.drop_left]

theorem faceKey_inj {a b : PyStr} (h : faceKey a = faceKey b) : a = b := by
  have := List.append_cancel_left (faceKey_eq_kf_append a ▸ faceKey_eq_kf_append b ▸ h)
  exact this

theorem matchesPattern_decomp {k : PyStr} (h : matchesPattern k = true) :
    k = faceKey (k.drop kf.length) := by
  have htake : k.take kf.length = kf := by
    simpa [matchesPattern] using h
  conv_lhs => rw [← List.take_append_drop kf.length k]
  rw [htake, faceKey_eq_kf_append]

theorem loadEntry_faceKey (r : PyStr) (e : Enc) (hr : ':' ∉ r) :
    loadEntry (faceKey r, some e) = some { roll := r, encoding := e } := by
  rw [loadEntry, keyRoll_faceKey r hr]

/-! ## Lookup and cache-update lemmas -/

theorem lookupRoll_nil (r : PyStr) : lookupRoll [] r = none := rfl

theorem lookupRoll_cons (fr : FaceRec) (l : List FaceRec) (r : PyStr) :
    lookupRoll (fr :: l) r =
      if fr.roll = r then some fr.encoding else lookupRoll l r := by
  by_cases h : fr.roll = r
  · simp [lookupRoll, List.find?_cons_of_pos, h]
  · simp [lookupRoll, List.find?_cons_of_neg, h]

theorem lookupRoll_updateCache (c : List FaceRec) (r : PyStr) (e : Enc) (r' : PyStr) :
    lookupRoll (updateCache c r e) r' =
      if r' = r then some e else lookupRoll c r' := by
  induction c with
  | nil =>
    simp only [updateCache, lookupRoll_cons, lookupRoll_nil]
    by_cases h : r' = r
    · simp [h]
    · simp [h, Ne.symm h]
  | cons fr rest ih =>
    by_cases hfr : fr.roll = r
    · subst hfr
      by_cases h : r' = fr.roll
      · simp [updateCache, lookupRoll_cons, h]
      · simp [updateCache, lookupRoll_cons, h, Ne.symm h]
    · by_cases h : r' = r
      · subst h
        simp [updateCache, hfr, lookupRoll_cons, ih]
      · simp [updateCache, hfr, lookupRoll_cons, ih, h]

theorem rollsOf_updateCache (c : List FaceRec) (r : PyStr) (e : Enc) :
    rollsOf (updateCache c r e) =
      if r ∈ rollsOf c then rollsOf c else rollsOf c ++ [r] := by
  induction c with
  | nil => simp [updateCache, rollsOf]
  | cons fr rest ih =>
    by_cases hfr : fr.roll = r
    · subst hfr
      have hmem : fr.roll ∈ rollsOf (fr :: rest) := by
        show fr.roll ∈ fr.roll :: rollsOf rest
        exact List.mem_cons_self _ _
      rw [if_pos hmem]
      simp [updateCache, rollsOf]
    · have hmem : (r ∈ rollsOf (fr :: rest)) ↔ (r ∈ rollsOf rest) := by
        show (r ∈ fr.roll :: rollsOf rest) ↔ _
        simp [List.mem_cons, Ne.symm hfr]
      have hcons : rollsOf (fr :: updateCache rest r e) =
          fr.roll :: rollsOf (updateCache rest r e) := rfl
      by_cases hm : r ∈ rollsOf rest
      · rw [if_pos (hmem.mpr hm)]
        simp only [updateCache, if_neg hfr]
        rw [hcons, ih, if_pos hm]
        rfl
      · rw [if_neg fun hc => hm (hmem.mp hc)]
        simp only [updateCache, if_neg hfr]
        rw [hcons, ih, if_neg hm]
        rfl

/-! ## Load lemmas -/

theorem loadFaces_nil : loadFaces [] = [] := rfl

theorem loadFaces_cons (kv : PyStr × RVal) (rest : RedisDb) :
    loadFaces (kv :: rest) =
      if matchesPattern kv.1 then
        match loadEntry kv with
        | some fr => fr :: loadFaces rest
        | none => loadFaces rest
      else loadFaces rest := by
  by_cases h : matchesPattern kv.1
  · simp only [loadFaces, List.filter_cons, h, if_true, List.filterMap_cons]
    cases hle : loadEntry kv <;> simp [hle, loadFaces]
  · simp only [loadFaces, List.filter_cons, h, Bool.false_eq_true, if_false]

theorem loadEntry_snd_none (k : PyStr) : loadEntry (k, none) = none := by
  rw [loadEntry]
  cases (splitOnColon k).get? 1 <;> rfl

theorem loadEntry_canonical {kv : PyStr × RVal} (hm : matchesPattern kv.1 = true)
    (hc : ':' ∉ kv.1.drop kf.length) :
    loadEntry kv =
      kv.2.map fun w => { roll := kv.1.drop kf.length, encoding := w } := by
  obtain ⟨k, val⟩ := kv
  dsimp only at hm hc ⊢
  have hsp : (splitOnColon k).get? 1 = some (k.drop kf.length) := by
    conv_lhs => rw [matchesPattern_decomp hm]
    exact keyRoll_faceKey _ hc
  cases val with
  | none => simp [loadEntry_snd_none]
  | some w => rw [loadEntry, hsp]; rfl

theorem CanonicalKeys.tail {kv : PyStr × RVal} {rest : RedisDb}
    (h : CanonicalKeys (kv :: rest)) : CanonicalKeys rest :=
  fun kv' hmem => h kv' (List.mem_cons_of_mem _ hmem)

theorem lookupRoll_loadFaces_set (db : RedisDb) (r : PyStr) (e : Enc)
    (hdb : CanonicalKeys db) (hr : ':' ∉ r) (r' : PyStr) :
    lookupRoll (loadFaces (redisSet db (faceKey r) (some e))) r' =
      if r' = r then some e else lookupRoll (loadFaces db) r' := by
  induction db with
  | nil =>
    show lookupRoll (loadFaces [(faceKey r, some e)]) r' = _
    rw [loadFaces_cons]
    simp only [matchesPattern_faceKey, if_true, loadEntry_faceKey r e hr,
      loadFaces_nil, lookupRoll_cons, lookupRoll_nil]
    by_cases h : r' = r
    · simp [h]
    · simp [h, Ne.symm h]
  | cons kv rest ih =>
    have hrest : CanonicalKeys rest := CanonicalKeys.tail hdb
    by_cases hk : kv.1 = faceKey r
    · have hset : redisSet (kv :: rest) (faceKey r) (some e) =
          (faceKey r, some e) :: rest := by
        simp [redisSet, hk]
      rw [hset, loadFaces_cons]
      simp only [matchesPattern_faceKey, if_true, loadEntry_faceKey r e hr]
      by_cases h : r' = r
      · subst h
        rw [lookupRoll_cons, if_pos rfl, if_pos rfl]
      · rw [lookupRoll_cons, if_neg (fun hh : ({roll := r, encoding := e} : FaceRec).roll = r' => h hh.symm),
          if_neg h, loadFaces_cons]
        have hm : matchesPattern kv.1 = true := by
          rw [hk]; exact matchesPattern_faceKey r
        rw [if_pos hm]
        obtain ⟨k₁, val⟩ := kv
        dsimp only at hk
        subst hk
        cases val with
        | none => rw [loadEntry_snd_none]
        | some w =>
          rw [loadEntry_faceKey r w hr, lookupRoll_cons,
            if_neg (fun hh : ({roll := r, encoding := w} : FaceRec).roll = r' => h hh.symm)]
    · have hset : redisSet (kv :: rest) (faceKey r) (some e) =
          kv :: redisSet rest (faceKey r) (some e) := by
        simp [redisSet, hk]
      rw [hset, loadFaces_cons, loadFaces_cons]
      by_cases hm : matchesPattern kv.1
      · have hc : ':' ∉ kv.1.drop kf.length := hdb kv (List.mem_cons_self _ _) hm
        rw [if_pos hm, if_pos hm, loadEntry_canonical hm hc]
        cases hval : kv.2 with
        | none =>
          simp only [Option.map_none']
          exact ih hrest
        | some w =>
          simp only [Option.map_some']
          have hsr : kv.1.drop kf.length ≠ r := by
            intro hsr
            exact hk (by rw [matchesPattern_decomp hm, hsr])
          rw [lookupRoll_cons, lookupRoll_cons]
          by_cases h : r' = r
          · subst h
            rw [if_neg (fun hh : ({roll := kv.1.drop kf.length, encoding := w} : FaceRec).roll = r' => hsr hh),
              ih hrest, if_pos rfl, if_pos rfl]
          · rw [if_neg h]
            by_cases hs : kv.1.drop kf.length = r'
            · rw [if_pos hs, if_pos hs]
            · rw [if_neg hs, if_neg hs, ih hrest, if_neg h]
      · rw [if_neg hm, if_neg hm]
        exact ih hrest

theorem mem_loadFaces_key {db : RedisDb} (hdb : CanonicalKeys db) {fr : FaceRec}
    (h : fr ∈ loadFaces db) : faceKey fr.roll ∈ db.map Prod.fst := by
  induction db with
  | nil => simp [loadFaces_nil] at h
  | cons kv rest ih =>
    have hrest : CanonicalKeys rest := CanonicalKeys.tail hdb
    rw [loadFaces_cons] at h
    by_cases hm : matchesPattern kv.1
    · rw [if_pos hm] at h
      have hc : ':' ∉ kv.1.drop kf.length := hdb kv (List.mem_cons_self _ _) hm
      rw [loadEntry_canonical hm hc] at h
      cases hval : kv.2 with
      | none =>
        rw [hval] at h
        simp only [Option.map_none'] at h
        exact List.mem_cons_of_mem _ (ih hrest h)
      | some w =>
        rw [hval] at h
        simp only [Option.map_some'] at h
        rcases List.mem_cons.mp h with hfr | hfr
        · subst hfr
          show faceKey (kv.1.drop kf.length) ∈ kv.1 :: rest.map Prod.fst
          rw [← matchesPattern_decomp hm]
          exact List.mem_cons_self _ _
        · exact List.mem_cons_of_mem _ (ih hrest hfr)
    · rw [if_neg hm] at h
      exact List.mem_cons_of_mem _ (ih hrest h)

theorem rollsOf_loadFaces_nodup (db : RedisDb) (hdb : CanonicalKeys db)
    (hkeys : (db.map Prod.fst).Nodup) : (rollsOf (loadFaces db)).Nodup := by
  induction db with
  | nil => simp [loadFaces_nil, rollsOf]
  | cons kv rest ih =>
    have hrest : CanonicalKeys rest := CanonicalKeys.tail hdb
    have hsplit := List.nodup_cons.mp (show (kv.1 :: rest.map Prod.fst).Nodup from hkeys)
    rw [loadFaces_cons]
    by_cases hm : matchesPattern kv.1
    · rw [if_pos hm]
      have hc : ':' ∉ kv.1.drop kf.length := hdb kv (List.mem_cons_self _ _) hm
      rw [loadEntry_canonical hm hc]
      cases hval : kv.2 with
      | none => simpa using ih hrest hsplit.2
      | some w =>
        simp only [Option.map_some']
        show (kv.1.drop kf.length :: rollsOf (loadFaces rest)).Nodup
        rw [List.nodup_cons]
        refine ⟨fun hmem => ?_, ih hrest hsplit.2⟩
        obtain ⟨fr, hfr, hroll⟩ := List.mem_map.mp hmem
        have hkey := mem_loadFaces_key hrest hfr
        rw [hroll, ← matchesPattern_decomp hm] at hkey
        exact hsplit.1 hkey
    · rw [if_neg hm]
      exact ih hrest hsplit.2

/-! ## Matching-path lemmas -/

theorem matchAgainst_eq_find (cache : List FaceRec) (probe : Enc) :
    matchAgainst cache probe =
      (cache.find? fun fr => isMatch fr.encoding probe).map (·.roll) := by
  induction cache with
  | nil => rfl
  | cons fr rest ih =>
    by_cases h : isMatch fr.encoding probe
    · simp [matchAgainst, idxOfTrue, h, List.find?_cons_of_pos]
    · have hfind : List.find? (fun x => isMatch x.encoding probe) (fr :: rest) =
          List.find? (fun x => isMatch x.encoding probe) rest :=
        List.find?_cons_of_neg _ (by simp [h])
      rw [hfind, ← ih]
      simp only [matchAgainst, List.map_cons, idxOfTrue, h, Bool.false_eq_true,
        if_false]
      cases hidx : idxOfTrue (rest.map fun x => isMatch x.encoding probe) with
      | none => simp
      | some i => simp

theorem recognizeFace_probe (st : ServerState) (i : Option PyStr) (v : Vision)
    (probe : Enc) (rest : List Enc)
    (hi : strFalsy i = false) (hne : st.knownFaces ≠ [])
    (hd : v.decoded = true) (he : v.encodings = probe :: rest) :
    recognizeFace st i v =
      if strFalsy (matchAgainst st.knownFaces probe) then (RecResult.noMatch, st)
      else (RecResult.matched ((matchAgainst st.knownFaces probe).getD []), st) := by
  have hemp : st.knownFaces.isEmpty = false := by
    cases hc : st.knownFaces with
    | nil => exact absurd hc hne
    | cons a l => rfl
  rw [recognizeFace, hi, hemp, hd, he]
  simp

/-! ## Concrete evaluations of the distance test -/

theorem isMatch_self_single (q : Rat) : isMatch [q] [q] = true := by
  simp [isMatch, sqDist, tolSq]
  norm_num

theorem isMatch_one_zero : isMatch [1] [0] = false := by
  norm_num [isMatch, sqDist, tolSq]

/-! ## Claims -/

/-- Counterexample to C1: the code never trims identifiers.  Enrolling with
identifier `" A "` writes the Redis key `"face_encoding: A "` verbatim and
caches no record under `"A"`, and the whitespace-only identifier `"   "` is
truthy, hence accepted rather than rejected as InvalidInput. -/
theorem c1_counterexample :
    (addFace ⟨[], []⟩ (some " A ".toList) (some "i".toList)
        ⟨true, [[0]]⟩).2.redisDb.map Prod.fst = ["face_encoding: A ".toList]
    ∧ lookupRoll (addFace ⟨[], []⟩ (some " A ".toList) (some "i".toList)
        ⟨true, [[0]]⟩).2.knownFaces "A".toList = none
    ∧ (addFace ⟨[], []⟩ (some "   ".toList) (some "i".toList) ⟨true, [[0]]⟩).1
        = AddResult.success "   ".toList :=
  ⟨by decide, by decide, by decide⟩

/-- C1 amended: identifiers are used verbatim, with no whitespace trimming on
write or on the value a match returns; a successful enrollment with
identifier `r` stores under exactly `face_encoding:<r>` and caches roll `r`
as given, and only a missing or literally empty identifier is rejected as
InvalidInput (a whitespace-only identifier is accepted). -/
theorem c1_identifiers_verbatim (st : ServerState) (r : PyStr) (i : Option PyStr)
    (v : Vision) (e : Enc) (hr : r ≠ []) (hi : strFalsy i = false)
    (hd : v.decoded = true) (he : v.encodings = [e]) :
    addFace st (some r) i v =
      (AddResult.success r,
        { redisDb := redisSet st.redisDb (faceKey r) (some e),
          knownFaces := updateCache st.knownFaces r e })
    ∧ addFace st (some []) i v = (AddResult.invalidInput, st) := by
  have hfr : strFalsy (some r) = false := by
    cases r with
    | nil => exact absurd rfl hr
    | cons a t => rfl
  constructor
  · rw [addFace, hfr, hi, hd, he]
    simp
  · rfl

/-- Witness for `c1_identifiers_verbatim` at a concrete untrimmed identifier. -/
theorem c1_identifiers_verbatim_w :
    addFace ⟨[], []⟩ (some " A ".toList) (some "i".toList) ⟨true, [[0]]⟩ =
      (AddResult.success " A ".toList,
        { redisDb := redisSet [] (faceKey " A ".toList) (some [0]),
          knownFaces := updateCache [] " A ".toList [0] })
    ∧ addFace ⟨[], []⟩ (some []) (some "i".toList) ⟨true, [[0]]⟩
        = (AddResult.invalidInput, ⟨[], []⟩) :=
  c1_identifiers_verbatim ⟨[], []⟩ " A ".toList (some "i".toList)
    ⟨true, [[0]]⟩ [0] (by decide) rfl rfl rfl

/-- Counterexample to C2: for the identifier `"a:b"` (which contains the
key separator), the upsert writes `face_encoding:a:b` but the reload parses
the roll as `key.split(':')[1] = "a"`, so the reconstructed mapping binds a
different identifier set than the in-memory one. -/
theorem c2_counterexample :
    lookupRoll (loadFaces (redisSet [] (faceKey "a:b".toList) (some [0])))
        "a:b".toList = none
    ∧ rollsOf (loadFaces (redisSet [] (faceKey "a:b".toList) (some [0])))
        = ["a".toList]
    ∧ rollsOf (updateCache [] "a:b".toList [0]) = ["a:b".toList] :=
  ⟨by decide, by decide, by decide⟩

/-- C2 amended: for identifiers containing no `':'`, and a durable store
whose scanned keys are all canonical, the upsert performed by enrollment
followed by a fresh load reconstructs a mapping equivalent to the updated
in-memory one (same identifiers, each bound to an equal vector). -/
theorem c2_upsert_load_roundtrip (db : RedisDb) (cache : List FaceRec)
    (r : PyStr) (e : Enc) (hdb : CanonicalKeys db) (hr : ':' ∉ r)
    (hsync : mapEquiv cache (loadFaces db)) :
    mapEquiv (updateCache cache r e)
      (loadFaces (redisSet db (faceKey r) (some e))) := by
  intro r'
  rw [lookupRoll_updateCache, lookupRoll_loadFaces_set db r e hdb hr r', hsync r']

/-- Witness for `c2_upsert_load_roundtrip` on the empty store. -/
theorem c2_upsert_load_roundtrip_w :
    mapEquiv (updateCache [] "a".toList [1])
      (loadFaces (redisSet [] (faceKey "a".toList) (some [1]))) :=
  c2_upsert_load_roundtrip [] [] "a".toList [1] (by decide) (by decide)
    (fun r => rfl)

/-- Counterexample to C3: with the environment variable absent the code
falls back to the local key-value connection string, not to a flat file. -/
theorem c3_counterexample :
    selectBackend none = Backend.keyValue defaultRedisUrl
    ∧ decide (selectBackend none = Backend.flatFile) = false :=
  ⟨rfl, by decide⟩

/-- C3 amended: when the connection-string variable is present and non-empty
the key-value backend at that URL is used; when it is absent (or empty) the
key-value backend is still used, at the default URL
`redis://localhost:6379`; every selection is a key-value backend — there is
no flat-file fallback in this code. -/
theorem c3_backend_selection :
    (∀ u : PyStr, selectBackend (some u) =
        Backend.keyValue (if u.isEmpty then defaultRedisUrl else u))
    ∧ selectBackend none = Backend.keyValue defaultRedisUrl
    ∧ ∀ env : Option PyStr, ∃ u : PyStr, selectBackend env = Backend.keyValue u :=
  ⟨fun _ => rfl, rfl, fun env => ⟨resolveRedisUrl env, rfl⟩⟩

/-- Counterexample to C4: two identifiers sharing their pre-colon segment
(`"a:b"` and `"a:c"`, both accepted by enrollment) produce two distinct
durable keys whose reload yields two records with the same parsed roll
`"a"`, violating at-most-one-record-per-identifier after the startup load. -/
theorem c4_counterexample :
    rollsOf (loadFaces (redisSet (redisSet [] (faceKey "a:b".toList) (some [0]))
        (faceKey "a:c".toList) (some [1]))) = ["a".toList, "a".toList]
    ∧ decide ((rollsOf (loadFaces (redisSet (redisSet []
        (faceKey "a:b".toList) (some [0]))
        (faceKey "a:c".toList) (some [1])))).Nodup) = false :=
  ⟨by decide, by decide⟩

/-- C4 amended: enrollment's cache update always preserves distinctness of
rolls and replaces in place (never appends) when the roll is present; the
startup load yields distinct rolls provided the scanned keys are canonical
(no identifier contains `':'`) and pairwise distinct. -/
theorem c4_at_most_one (cache : List FaceRec) (r : PyStr) (e : Enc)
    (db : RedisDb) (hc : (rollsOf cache).Nodup) (hdb : CanonicalKeys db)
    (hkeys : (db.map Prod.fst).Nodup) :
    (rollsOf (updateCache cache r e)).Nodup
    ∧ (r ∈ rollsOf cache → rollsOf (updateCache cache r e) = rollsOf cache)
    ∧ (rollsOf (loadFaces db)).Nodup := by
  refine ⟨?_, fun hm => by rw [rollsOf_updateCache, if_pos hm],
    rollsOf_loadFaces_nodup db hdb hkeys⟩
  rw [rollsOf_updateCache]
  by_cases hm : r ∈ rollsOf cache
  · rw [if_pos hm]; exact hc
  · rw [if_neg hm]
    simp [List.nodup_append, hc, hm]

/-- Witness for `c4_at_most_one` at a one-record cache and one-key store. -/
theorem c4_at_most_one_w :
    (rollsOf (updateCache [⟨"a".toList, [0]⟩] "a".toList [1])).Nodup
    ∧ ("a".toList ∈ rollsOf [⟨"a".toList, [0]⟩] →
        rollsOf (updateCache [⟨"a".toList, [0]⟩] "a".toList [1])
          = rollsOf [⟨"a".toList, [0]⟩])
    ∧ (rollsOf (loadFaces [(faceKey "b".toList, some [2])])).Nodup :=
  c4_at_most_one [⟨"a".toList, [0]⟩] "a".toList [1]
    [(faceKey "b".toList, some [2])] (by decide) (by decide) (by decide)

/-- C5: an enrollment whose image yields zero detected faces answers
NoFaceDetected, and one whose image yields more than one face answers
MultipleFacesDetected; in both cases neither the Redis contents nor the
in-memory cache change. -/
theorem c5_face_count_guards (st : ServerState) (r i : Option PyStr)
    (v : Vision) (hr : strFalsy r = false) (hi : strFalsy i = false)
    (hd : v.decoded = true) :
    (v.encodings = [] → addFace st r i v = (AddResult.noFaceDetected, st))
    ∧ (2 ≤ v.encodings.length →
        addFace st r i v = (AddResult.multipleFaces, st)) := by
  constructor
  · intro he
    simp [addFace, hr, hi, hd, he]
  · intro hlen
    cases henc : v.encodings with
    | nil => rw [henc] at hlen; simp at hlen
    | cons e1 t =>
      cases ht : t with
      | nil => rw [henc, ht] at hlen; simp at hlen
      | cons e2 t2 =>
        rw [ht] at henc
        simp [addFace, hr, hi, hd, henc]

/-- Witness for `c5_face_count_guards`: a zero-face and a two-face image. -/
theorem c5_face_count_guards_w :
    addFace ⟨[], []⟩ (some "r".toList) (some "i".toList) ⟨true, []⟩
        = (AddResult.noFaceDetected, ⟨[], []⟩)
    ∧ addFace ⟨[], []⟩ (some "r".toList) (some "i".toList) ⟨true, [[0], [1]]⟩
        = (AddResult.multipleFaces, ⟨[], []⟩) :=
  ⟨(c5_face_count_guards ⟨[], []⟩ (some "r".toList) (some "i".toList)
      ⟨true, []⟩ rfl rfl rfl).1 rfl,
   (c5_face_count_guards ⟨[], []⟩ (some "r".toList) (some "i".toList)
      ⟨true, [[0], [1]]⟩ rfl rfl rfl).2 (by decide)⟩

/-- C6: a missing (or empty, hence falsy) image field is rejected as
InvalidInput before anything else, even on an empty store; with a present
image and an empty store the answer is EmptyDatabase for every decode and
detection outcome — in particular for an undecodable image — so no spurious
identifier can be produced. -/
theorem c6_empty_database (st : ServerState) (i : Option PyStr) (v : Vision) :
    (strFalsy i = true → recognizeFace st i v = (RecResult.invalidInput, st))
    ∧ (strFalsy i = false → st.knownFaces = [] →
        recognizeFace st i v = (RecResult.emptyDatabase, st)) := by
  constructor
  · intro h
    simp [recognizeFace, h]
  · intro h hemp
    simp [recognizeFace, h, hemp]

/-- Witness for `c6_empty_database`, with an undecodable image oracle. -/
theorem c6_empty_database_w :
    recognizeFace ⟨[], []⟩ none ⟨false, []⟩ = (RecResult.invalidInput, ⟨[], []⟩)
    ∧ recognizeFace ⟨[], []⟩ (some "i".toList) ⟨false, []⟩
        = (RecResult.emptyDatabase, ⟨[], []⟩) :=
  ⟨(c6_empty_database ⟨[], []⟩ none ⟨false, []⟩).1 rfl,
   (c6_empty_database ⟨[], []⟩ (some "i".toList) ⟨false, []⟩).2 rfl rfl⟩

/-- Counterexample to C7 as stated universally: in a cache whose first
passing record carries the empty roll (reachable by enrolling `":x"` and
reloading), the handler answers NoMatch instead of returning the first
passing record's identifier. -/
theorem c7_counterexample :
    idxOfTrue (([⟨[], [0]⟩, ⟨"B".toList, [0]⟩] : List FaceRec).map
        fun fr => isMatch fr.encoding [0]) = some 0
    ∧ rollsOf [⟨([] : PyStr), [0]⟩, ⟨"B".toList, [0]⟩] = [[], "B".toList]
    ∧ recognizeFace ⟨[], [⟨[], [0]⟩, ⟨"B".toList, [0]⟩]⟩ (some "i".toList)
        ⟨true, [[0]]⟩
        = (RecResult.noMatch, ⟨[], [⟨[], [0]⟩, ⟨"B".toList, [0]⟩]⟩)
    ∧ decide (RecResult.noMatch = RecResult.matched []) = false := by
  refine ⟨?_, by decide, ?_, by decide⟩
  · simp [idxOfTrue, isMatch_self_single]
  · simp [recognizeFace, matchAgainst, idxOfTrue, isMatch_self_single, strFalsy]

/-- C7 amended: against a non-empty store, the record compared is the first
passing one in the cache's iteration order (not the minimum-distance one):
when its identifier is non-empty that identifier is returned, and when no
stored encoding passes the 0.55-tolerance test the answer is NoMatch (if the
first passing identifier is empty the no-match response is produced — see
the truthiness analysis of C10). -/
theorem c7_first_match_wins (st : ServerState) (i : Option PyStr) (v : Vision)
    (probe : Enc) (rest : List Enc) (hne : st.knownFaces ≠ [])
    (hi : strFalsy i = false) (hd : v.decoded = true)
    (he : v.encodings = probe :: rest) :
    (∀ fr : FaceRec,
        (st.knownFaces.find? fun x => isMatch x.encoding probe) = some fr →
        fr.roll ≠ [] →
        recognizeFace st i v = (RecResult.matched fr.roll, st))
    ∧ ((st.knownFaces.find? fun x => isMatch x.encoding probe) = none →
        recognizeFace st i v = (RecResult.noMatch, st)) := by
  have hrec := recognizeFace_probe st i v probe rest hi hne hd he
  constructor
  · intro fr hfind hroll
    have hma : matchAgainst st.knownFaces probe = some fr.roll := by
      rw [matchAgainst_eq_find, hfind]
      rfl
    rw [hrec, hma]
    have hnf : strFalsy (some fr.roll) = false := by
      cases hq : fr.roll with
      | nil => exact absurd hq hroll
      | cons a t => rfl
    rw [hnf]
    rfl
  · intro hfind
    have hma : matchAgainst st.knownFaces probe = none := by
      rw [matchAgainst_eq_find, hfind]
      rfl
    rw [hrec, hma]
    rfl

/-- Witness for `c7_first_match_wins` on a one-record store that passes. -/
theorem c7_first_match_wins_w :
    recognizeFace ⟨[], [⟨"B".toList, [1]⟩]⟩ (some "i".toList) ⟨true, [[1]]⟩
      = (RecResult.matched "B".toList, ⟨[], [⟨"B".toList, [1]⟩]⟩) :=
  (c7_first_match_wins ⟨[], [⟨"B".toList, [1]⟩]⟩ (some "i".toList)
      ⟨true, [[1]]⟩ [1] [] (by simp) rfl rfl rfl).1 ⟨"B".toList, [1]⟩
    (by simp [List.find?, isMatch_self_single]) (by decide)

/-- C8: only the first detected face is used for matching — the result is
unchanged under any replacement of the remaining detected faces. -/
theorem c8_first_face_only (st : ServerState) (i : Option PyStr) (d : Bool)
    (probe : Enc) (rest rest' : List Enc) :
    recognizeFace st i ⟨d, probe :: rest⟩
      = recognizeFace st i ⟨d, probe :: rest'⟩ := rfl

/-- C9: a match request mutates nothing — the Redis contents and the
in-memory cache after `recognize_face` are the state it started from, on
every control path. -/
theorem c9_match_no_mutation (st : ServerState) (i : Option PyStr) (v : Vision) :
    (recognizeFace st i v).2 = st := by
  rw [recognizeFace]
  split
  · rfl
  · split
    · rfl
    · split
      · rfl
      · split
        · rfl
        · dsimp only
          split
          · rfl
          · rfl

/-- C10: when the first stored record passing the threshold has the empty
identifier, the truthiness test `if recognized_roll:` fails and the handler
reports the no-match outcome instead of that record's identifier. -/
theorem c10_empty_roll_no_match (st : ServerState) (i : Option PyStr)
    (v : Vision) (probe : Enc) (rest : List Enc) (fr : FaceRec)
    (hne : st.knownFaces ≠ []) (hi : strFalsy i = false)
    (hd : v.decoded = true) (he : v.encodings = probe :: rest)
    (hfind : (st.knownFaces.find? fun x => isMatch x.encoding probe) = some fr)
    (hroll : fr.roll = []) :
    recognizeFace st i v = (RecResult.noMatch, st) := by
  have hrec := recognizeFace_probe st i v probe rest hi hne hd he
  have hma : matchAgainst st.knownFaces probe = some fr.roll := by
    rw [matchAgainst_eq_find, hfind]
    rfl
  rw [hrec, hma, hroll]
  rfl

/-- Witness for `c10_empty_roll_no_match` on a store holding one passing
record with the empty roll. -/
theorem c10_empty_roll_no_match_w :
    recognizeFace ⟨[], [⟨[], [2]⟩]⟩ (some "i".toList) ⟨true, [[2]]⟩
      = (RecResult.noMatch, ⟨[], [⟨[], [2]⟩]⟩) :=
  c10_empty_roll_no_match ⟨[], [⟨[], [2]⟩]⟩ (some "i".toList) ⟨true, [[2]]⟩
    [2] [] ⟨[], [2]⟩ (by simp) rfl rfl rfl
    (by simp [List.find?, isMatch_self_single]) rfl
